import Mathlib

/-!
Verification of the lit-router-extended core: a shallow embedding of the
route scorer and pattern compiler (src/scorer.js, class ReactRouterScorer),
the per-node navigation controller (routes.js, class Routes), and the
token-based cancellation protocol, together with theorems settling the
specified properties.

Conventions of the embedding:
- JavaScript strings are modelled as Lean String values; the string
  primitives used by the source (split, startsWith, endsWith, slice,
  substring, replace) are re-implemented over List Char so that all
  definitions are executable and kernel-reducible.
- JavaScript numbers are modelled as Rat (the score arithmetic of the
  source is exact decimal/ratio arithmetic at the magnitudes involved).
- JavaScript objects used as string-keyed maps are modelled as association
  lists in insertion order, with assignment overwriting in place, matching
  object key-iteration semantics.
- The regexes produced by compileRoute fall into a small fixed fragment
  (literal runs, greedy dot-star groups, greedy and lazy non-slash groups,
  anchored with an optional leading and trailing slash); the fragment is
  given a direct backtracking semantics that mirrors the JS regex engine
  (greedy quantifiers prefer longer matches, lazy prefer shorter, first
  success in that exploration order wins).
-/

namespace LitRouter

/-- JS split on the slash character: "a//b".split(slash) gives the pieces
including empty ones; accumulator form, one piece per separator plus one. -/
def splitSlashAux : List Char → List Char → List (List Char)
  | [], acc => [acc.reverse]
  | c :: cs, acc =>
      if c = '/' then acc.reverse :: splitSlashAux cs []
      else splitSlashAux cs (c :: acc)

/-- path.split(slash).filter(Boolean) from scoreRoute and compileRoute:
split on slash and discard empty pieces. -/
def segsOf (p : String) : List String :=
  ((splitSlashAux p.toList []).filter (fun s => s ≠ [])).map String.mk

/-- segment === star or segment === starstar (scoreRoute line 55). -/
def isWildSeg (s : String) : Bool := s == "*" || s == "**"

/-- segment.startsWith(colon). -/
def startsColon (s : String) : Bool := s.toList.head? == some ':'

/-- segment.endsWith(question mark). -/
def endsQm (s : String) : Bool := s.toList.getLast? == some '?'

/-- The running tally built by the forEach loop of scoreRoute. -/
structure Breakdown where
  staticSegments : Nat
  dynamicSegments : Nat
  optionalSegments : Nat
  wildcards : Nat
  depth : Nat
deriving DecidableEq

/-- One iteration of the forEach classification in scoreRoute
(src/scorer.js lines 54-66), in source order: wildcard first, then
colon-started segments split on the trailing question mark, else static. -/
def countSeg (b : Breakdown) (s : String) : Breakdown :=
  if isWildSeg s then { b with wildcards := b.wildcards + 1 }
  else if startsColon s then
    if endsQm s then { b with optionalSegments := b.optionalSegments + 1 }
    else { b with dynamicSegments := b.dynamicSegments + 1 }
  else { b with staticSegments := b.staticSegments + 1 }

/-- The breakdown computed for a non-root path: counts from the forEach
loop, depth preset to segments.length. -/
def breakdownOf (path : String) : Breakdown :=
  let segments := segsOf path
  segments.foldl countSeg ⟨0, 0, 0, 0, segments.length⟩

/-- specificity = staticCount / totalSegments with totalSegments the sum of
the four class counts, 0 when that sum is 0 (scoreRoute lines 87-88). -/
def specificityOf (b : Breakdown) : ℚ :=
  if 0 < b.staticSegments + b.dynamicSegments + b.optionalSegments + b.wildcards then
    (b.staticSegments : ℚ)
      / ((b.staticSegments + b.dynamicSegments + b.optionalSegments + b.wildcards : Nat) : ℚ)
  else 0

/-- The score accumulation of scoreRoute lines 69-89 with the
RANKING_FACTORS constants 1000, 100, 10, -50, 1 and 1/10 inlined. -/
def scoreOf (b : Breakdown) : ℚ :=
  (b.staticSegments : ℚ) * 1000 + (b.dynamicSegments : ℚ) * 100
    + (b.optionalSegments : ℚ) * 10 + (b.wildcards : ℚ) * (-50)
    + (b.depth : ℚ) * 1 + specificityOf b * (1 / 10)

/-- The result object of scoreRoute. -/
structure ScoreResult where
  score : ℚ
  breakdown : Breakdown
  specificity : ℚ

/-- ReactRouterScorer.scoreRoute: the falsy/root special case returns the
fixed static-equivalent result; otherwise count, then combine. -/
def scoreRoute (path : String) : ScoreResult :=
  if path = "" ∨ path = "/" then
    ⟨1000, ⟨1, 0, 0, 0, 1⟩, 1⟩
  else
    ⟨scoreOf (breakdownOf path), breakdownOf path, specificityOf (breakdownOf path)⟩

/-! Claim-side segment classes, written from the words of the claims:
static means neither a wildcard form nor colon-started; dynamic means
colon-started without trailing question mark; optional means colon-started
with trailing question mark; wildcard means star or double star. -/

def claimStatic (s : String) : Bool := !isWildSeg s && !startsColon s

def claimDynamic (s : String) : Bool := startsColon s && !endsQm s

def claimOptional (s : String) : Bool := startsColon s && endsQm s

def claimWildcard (s : String) : Bool := isWildSeg s

lemma startsColon_of_wild {s : String} (h : isWildSeg s = true) :
    startsColon s = false := by
  have : s = "*" ∨ s = "**" := by
    simpa [isWildSeg] using h
  rcases this with h | h <;> subst h <;> rfl

/-- The formula claimed for score(template) on non-root templates, written
from the words of the claim: counts by splitting on slash, discarding
empty segments, depth the number of segments, specificity the static
ratio with 0 for the empty segment list. -/
def claimScore (t : String) : ℚ :=
  let segs := segsOf t
  let s := (segs.filter claimStatic).length
  let d := (segs.filter claimDynamic).length
  let o := (segs.filter claimOptional).length
  let w := (segs.filter claimWildcard).length
  let spec : ℚ := if segs.length = 0 then 0 else (s : ℚ) / (segs.length : ℚ)
  (s : ℚ) * 1000 + (d : ℚ) * 100 + (o : ℚ) * 10 + (w : ℚ) * (-50)
    + (segs.length : ℚ) * 1 + spec * (1 / 10)

lemma foldl_countSeg (l : List String) (b : Breakdown) :
    l.foldl countSeg b =
      ⟨b.staticSegments + (l.filter claimStatic).length,
       b.dynamicSegments + (l.filter claimDynamic).length,
       b.optionalSegments + (l.filter claimOptional).length,
       b.wildcards + (l.filter claimWildcard).length,
       b.depth⟩ := by
  induction l generalizing b with
  | nil => simp
  | cons s l ih =>
      by_cases hw : isWildSeg s
      · have hc := startsColon_of_wild hw
        simp [List.foldl_cons, ih, countSeg, hw, hc, claimStatic, claimDynamic,
          claimOptional, claimWildcard, List.filter_cons]
        omega
      · by_cases hc : startsColon s
        · by_cases hq : endsQm s
          · simp [List.foldl_cons, ih, countSeg, hw, hc, hq, claimStatic,
              claimDynamic, claimOptional, claimWildcard, List.filter_cons]
            omega
          · simp [List.foldl_cons, ih, countSeg, hw, hc, hq, claimStatic,
              claimDynamic, claimOptional, claimWildcard, List.filter_cons]
            omega
        · simp [List.foldl_cons, ih, countSeg, hw, hc, claimStatic,
            claimDynamic, claimOptional, claimWildcard, List.filter_cons]
          omega

lemma class_partition (l : List String) :
    (l.filter claimStatic).length + (l.filter claimDynamic).length
      + (l.filter claimOptional).length + (l.filter claimWildcard).length
      = l.length := by
  induction l with
  | nil => simp
  | cons s l ih =>
      by_cases hw : isWildSeg s
      · have hc := startsColon_of_wild hw
        simp [claimStatic, claimDynamic, claimOptional, claimWildcard, hw, hc,
          List.filter_cons]
        omega
      · by_cases hc : startsColon s
        · by_cases hq : endsQm s
          · simp [claimStatic, claimDynamic, claimOptional, claimWildcard,
              hw, hc, hq, List.filter_cons]
            omega
          · simp [claimStatic, claimDynamic, claimOptional, claimWildcard,
              hw, hc, hq, List.filter_cons]
            omega
        · simp [claimStatic, claimDynamic, claimOptional, claimWildcard,
            hw, hc, List.filter_cons]
          omega

lemma breakdownOf_eq (t : String) :
    breakdownOf t =
      ⟨((segsOf t).filter claimStatic).length,
       ((segsOf t).filter claimDynamic).length,
       ((segsOf t).filter claimOptional).length,
       ((segsOf t).filter claimWildcard).length,
       (segsOf t).length⟩ := by
  simp [breakdownOf, foldl_countSeg]

lemma breakdownOf_depth_eq_sum (t : String) :
    (breakdownOf t).depth =
      (breakdownOf t).staticSegments + (breakdownOf t).dynamicSegments
        + (breakdownOf t).optionalSegments + (breakdownOf t).wildcards := by
  rw [breakdownOf_eq]
  exact (class_partition (segsOf t)).symm

lemma specificityOf_nonneg (b : Breakdown) : 0 ≤ specificityOf b := by
  unfold specificityOf
  split
  · positivity
  · simp

lemma specificityOf_le_one (b : Breakdown) : specificityOf b ≤ 1 := by
  unfold specificityOf
  split
  · rename_i h
    rw [div_le_one (by exact_mod_cast h)]
    have : b.staticSegments ≤ b.staticSegments + b.dynamicSegments
        + b.optionalSegments + b.wildcards := by omega
    exact_mod_cast this
  · simp

lemma specificityOf_zero_static {b : Breakdown} (h : b.staticSegments = 0) :
    specificityOf b = 0 := by
  unfold specificityOf
  split <;> simp [h]

lemma scoreRoute_nonroot {t : String} (h : ¬ (t = "" ∨ t = "/")) :
    scoreRoute t = ⟨scoreOf (breakdownOf t), breakdownOf t, specificityOf (breakdownOf t)⟩ := by
  rw [scoreRoute, if_neg h]

lemma scoreRoute_root {t : String} (h : t = "" ∨ t = "/") :
    scoreRoute t = ⟨1000, ⟨1, 0, 0, 0, 1⟩, 1⟩ := by
  rw [scoreRoute, if_pos h]

/-- Claim C4: for every non-root template the score equals
staticCount times 1000 plus dynamicCount times 100 plus optionalCount
times 10 plus wildcardCount times -50 plus depth plus specificity times
one tenth, with the counts, depth and specificity defined by the claim
wording (split on slash, discard empty segments, classify star forms as
wildcard, colon with trailing question mark as optional, colon as
dynamic, anything else as static). -/
theorem c4_score_formula (t : String) (h0 : t ≠ "") (h1 : t ≠ "/") :
    (scoreRoute t).score = claimScore t := by
  have hroot : ¬ (t = "" ∨ t = "/") := by simp [h0, h1]
  have hp := class_partition (segsOf t)
  rw [scoreRoute_nonroot hroot]
  simp only [scoreOf, specificityOf, claimScore, breakdownOf_eq t, hp]
  rcases Nat.eq_zero_or_pos (segsOf t).length with hz | hz
  · rw [if_neg (by omega), if_pos hz]
  · rw [if_pos hz, if_neg (by omega)]

/-- Witness for C4 at the concrete template /users/:id. -/
theorem c4_score_formula_witness :
    (scoreRoute "/users/:id").score = claimScore "/users/:id" :=
  c4_score_formula "/users/:id" (by decide) (by decide)

/-- Counterexample to claim C3 as stated: the template /a has strictly
more static segments (1 against 0) and no more wildcard segments (0
against 0) than a template of eleven dynamic segments, yet its score is
not strictly greater: 1001.1 against 1111 (each dynamic segment is worth
100, so eleven of them outscore one static segment plus bonuses). -/
theorem c3_counterexample :
    (scoreRoute "/:a/:b/:c/:d/:e/:f/:g/:h/:i/:j/:k").breakdown.staticSegments
        < (scoreRoute "/a").breakdown.staticSegments ∧
    (scoreRoute "/a").breakdown.wildcards
        ≤ (scoreRoute "/:a/:b/:c/:d/:e/:f/:g/:h/:i/:j/:k").breakdown.wildcards ∧
    ¬ ((scoreRoute "/:a/:b/:c/:d/:e/:f/:g/:h/:i/:j/:k").score
        < (scoreRoute "/a").score) := by
  have hA : (scoreRoute "/a").score = 1001 + 1 / 10 := by
    rw [scoreRoute_nonroot (by decide)]
    rw [show breakdownOf "/a" = ⟨1, 0, 0, 0, 1⟩ from by decide]
    norm_num [scoreOf, specificityOf]
  have hB : (scoreRoute "/:a/:b/:c/:d/:e/:f/:g/:h/:i/:j/:k").score = 1111 := by
    rw [scoreRoute_nonroot (by decide)]
    rw [show breakdownOf "/:a/:b/:c/:d/:e/:f/:g/:h/:i/:j/:k" = ⟨0, 11, 0, 0, 11⟩ from
      by decide]
    norm_num [scoreOf, specificityOf]
  refine ⟨by decide, by decide, ?_⟩
  rw [hA, hB]
  norm_num

/-- Claim C3 (amended): a template with strictly more static segments,
at least as many dynamic segments, at least as many optional segments
and no more wildcard segments than a competitor scores strictly higher.
(The original claim omitted the dynamic and optional conditions; the
counterexample shows they are necessary, since dynamic segments are worth
100 and optional segments 10 apiece.) -/
theorem c3_amended (a b : String)
    (hS : (scoreRoute b).breakdown.staticSegments
        < (scoreRoute a).breakdown.staticSegments)
    (hD : (scoreRoute b).breakdown.dynamicSegments
        ≤ (scoreRoute a).breakdown.dynamicSegments)
    (hO : (scoreRoute b).breakdown.optionalSegments
        ≤ (scoreRoute a).breakdown.optionalSegments)
    (hW : (scoreRoute a).breakdown.wildcards
        ≤ (scoreRoute b).breakdown.wildcards) :
    (scoreRoute b).score < (scoreRoute a).score := by
  by_cases ha : a = "" ∨ a = "/" <;> by_cases hb : b = "" ∨ b = "/"
  · rw [scoreRoute_root ha, scoreRoute_root hb] at hS
    simp at hS
  · -- a is the root template, b is not: all of the counts of b other than
    -- wildcards are forced to zero, so the score of b is -49 per wildcard.
    rw [scoreRoute_root ha] at hS hD hO hW ⊢
    rw [scoreRoute_nonroot hb] at hS hD hO hW ⊢
    dsimp only at hS hD hO hW ⊢
    have h1 : (breakdownOf b).staticSegments = 0 := by omega
    have h2 : (breakdownOf b).dynamicSegments = 0 := by omega
    have h3 : (breakdownOf b).optionalSegments = 0 := by omega
    have hdep := breakdownOf_depth_eq_sum b
    have hspec := specificityOf_zero_static h1
    rw [scoreOf, hspec, h1, h2, h3]
    rw [h1, h2, h3] at hdep
    rw [hdep]
    have : (0 : ℚ) ≤ ((breakdownOf b).wildcards : ℚ) := by positivity
    push_cast
    linarith
  · -- b is the root template, a is not: a has at least two static
    -- segments and no wildcards, so its score is at least 2000.
    rw [scoreRoute_root hb] at hS hD hO hW ⊢
    rw [scoreRoute_nonroot ha] at hS hD hO hW ⊢
    dsimp only at hS hD hO hW ⊢
    have h1 : 2 ≤ (breakdownOf a).staticSegments := by omega
    have h4 : (breakdownOf a).wildcards = 0 := by omega
    have hspec := specificityOf_nonneg (breakdownOf a)
    rw [scoreOf, h4]
    have c1 : (2 : ℚ) ≤ ((breakdownOf a).staticSegments : ℚ) := by exact_mod_cast h1
    have c2 : (0 : ℚ) ≤ ((breakdownOf a).dynamicSegments : ℚ) := by positivity
    have c3 : (0 : ℚ) ≤ ((breakdownOf a).optionalSegments : ℚ) := by positivity
    have c5 : (0 : ℚ) ≤ ((breakdownOf a).depth : ℚ) := by positivity
    push_cast
    linarith
  · -- the main case: both templates go through the counting path.
    rw [scoreRoute_nonroot ha] at hS hD hO hW ⊢
    rw [scoreRoute_nonroot hb] at hS hD hO hW ⊢
    dsimp only at hS hD hO hW ⊢
    have hdepA := breakdownOf_depth_eq_sum a
    have hdepB := breakdownOf_depth_eq_sum b
    have hsA := specificityOf_nonneg (breakdownOf a)
    have hsB := specificityOf_le_one (breakdownOf b)
    rw [scoreOf, scoreOf]
    have cS : ((breakdownOf b).staticSegments : ℚ) + 1
        ≤ ((breakdownOf a).staticSegments : ℚ) := by exact_mod_cast hS
    have cD : ((breakdownOf b).dynamicSegments : ℚ)
        ≤ ((breakdownOf a).dynamicSegments : ℚ) := by exact_mod_cast hD
    have cO : ((breakdownOf b).optionalSegments : ℚ)
        ≤ ((breakdownOf a).optionalSegments : ℚ) := by exact_mod_cast hO
    have cW : ((breakdownOf a).wildcards : ℚ)
        ≤ ((breakdownOf b).wildcards : ℚ) := by exact_mod_cast hW
    have cdA : ((breakdownOf a).depth : ℚ)
        = ((breakdownOf a).staticSegments : ℚ) + ((breakdownOf a).dynamicSegments : ℚ)
          + ((breakdownOf a).optionalSegments : ℚ) + ((breakdownOf a).wildcards : ℚ) := by
      exact_mod_cast hdepA
    have cdB : ((breakdownOf b).depth : ℚ)
        = ((breakdownOf b).staticSegments : ℚ) + ((breakdownOf b).dynamicSegments : ℚ)
          + ((breakdownOf b).optionalSegments : ℚ) + ((breakdownOf b).wildcards : ℚ) := by
      exact_mod_cast hdepB
    linarith

/-- Witness for C3 (amended) at the specification example pair:
/users/:id/posts outranks /users/star. -/
theorem c3_amended_witness :
    (scoreRoute "/users/*").score < (scoreRoute "/users/:id/posts").score :=
  c3_amended "/users/:id/posts" "/users/*" (by decide) (by decide) (by decide) (by decide)

/-! ## The pattern compiler (ReactRouterScorer.compileRoute) and matcher

compileRoute builds a regex string from the segment list; the regexes it
can build are sequences of the following tokens, wrapped in an anchored
frame of an optional leading slash and an optional trailing slash.
The token list below is that regex, tokenised:
- lit s: an escaped static segment (the escaping makes it match exactly
  its own characters);
- slash: the separating slash emitted before every segment except the
  first;
- anyStar: a greedy capturing dot-star group, emitted for both the star
  and the double-star segment;
- segPlus: a greedy capturing one-or-more non-slash group, for a
  required dynamic segment;
- segLazy: a lazy capturing zero-or-more non-slash group, for an
  optional dynamic segment. -/

inductive RTok
  | lit (s : List Char)
  | slash
  | anyStar
  | segPlus
  | segLazy
deriving DecidableEq

/-- Candidate match lengths for a greedy quantifier: longest first. -/
def descLens (n : Nat) : List Nat := (List.range (n + 1)).reverse

/-- The character class of a dot in a JS regex: anything but a newline. -/
def notNl (c : Char) : Bool := c ≠ '\n'

/-- The character class of the dynamic-segment groups: anything but a
slash. -/
def notSlash (c : Char) : Bool := c ≠ '/'

/-- Backtracking matcher for the regex fragment, returning the list of
captures in group order on success. The empty token list carries the
trailing frame: the regex ends with an optional slash and the end anchor,
so the remaining input must be empty or a single slash. A dot in the JS
regex matches any character except a newline; greedy groups try longer
captures first, the lazy group tries shorter first, and the first success
in that order wins, as in the JS engine. -/
def matchToks : List RTok → List Char → Option (List (List Char))
  | [], cs => if cs = [] ∨ cs = ['/'] then some [] else none
  | RTok.lit s :: rest, cs =>
      if cs.take s.length = s then matchToks rest (cs.drop s.length) else none
  | RTok.slash :: rest, cs =>
      match cs with
      | c :: cs' => if c = '/' then matchToks rest cs' else none
      | [] => none
  | RTok.anyStar :: rest, cs =>
      (descLens (cs.takeWhile notNl).length).findSome? (fun n =>
        (matchToks rest (cs.drop n)).map (fun caps => cs.take n :: caps))
  | RTok.segPlus :: rest, cs =>
      ((descLens (cs.takeWhile notSlash).length).filter (fun n => 1 ≤ n)).findSome?
        (fun n => (matchToks rest (cs.drop n)).map (fun caps => cs.take n :: caps))
  | RTok.segLazy :: rest, cs =>
      (List.range ((cs.takeWhile notSlash).length + 1)).findSome? (fun n =>
        (matchToks rest (cs.drop n)).map (fun caps => cs.take n :: caps))

/-- The anchored regex with its leading frame: caret, optional slash.
The optional slash is greedy, so the run that consumes a leading slash is
preferred and the bare run is the backtracking fallback. -/
def runPattern (toks : List RTok) (cs : List Char) : Option (List (List Char)) :=
  match cs with
  | c :: cs' =>
      if c = '/' then (matchToks toks cs').orElse (fun _ => matchToks toks (c :: cs'))
      else matchToks toks (c :: cs')
  | [] => matchToks toks []

/-- segment.slice(1).replace(question mark, empty): drop the colon, then
remove the first question mark occurrence (JS replace with a string
pattern replaces only the first occurrence). -/
def removeFirstQm : List Char → List Char
  | [] => []
  | c :: cs => if c = '?' then cs else c :: removeFirstQm cs

/-- The forEach loop of compileRoute (src/scorer.js lines 109-138):
token list and param-name list for a segment list. The Bool argument
tracks whether the segment is the first (no separating slash before it). -/
def compileSegsAux : List String → Bool → List RTok × List String
  | [], _ => ([], [])
  | s :: rest, first =>
      let sep : List RTok := if first then [] else [RTok.slash]
      let piece : List RTok × List String :=
        if s = "*" then ([RTok.anyStar], ["0"])
        else if s = "**" then ([RTok.anyStar], ["**"])
        else if startsColon s then
          let name := String.mk (removeFirstQm (s.toList.drop 1))
          if endsQm s then ([RTok.segLazy], [name]) else ([RTok.segPlus], [name])
        else ([RTok.lit s.toList], [])
      let restC := compileSegsAux rest false
      (sep ++ piece.1 ++ restC.1, piece.2 ++ restC.2)

/-- The compiled route object: regex (as its token list), params,
segments. -/
structure Compiled where
  toks : List RTok
  params : List String
  segments : List String
deriving DecidableEq

/-- ReactRouterScorer.compileRoute. -/
def compileRoute (path : String) : Compiled :=
  let segments := segsOf path
  let c := compileSegsAux segments true
  ⟨c.1, c.2, segments⟩

/-- compiledRule.regex.test(pathname): note that test receives the raw
pathname, without the trailing-slash normalization that exec applies. -/
def testPattern (toks : List RTok) (p : String) : Bool :=
  (runPattern toks p.toList).isSome

/-- The pathname normalization of matchPathAdvanced: strip one trailing
slash unless the pathname is exactly the root slash. -/
def normalizePath (p : String) : String :=
  if p.toList.getLast? = some '/' ∧ p ≠ "/" then String.mk p.toList.dropLast else p

/-- JS object assignment o[k] = v on a string-keyed object: overwrite in
place when the key exists, else append, preserving key insertion order.
(Object keys are unique, so overwriting the first occurrence is the
general behavior; every object in this embedding is built from the empty
object through objSet, which never creates a duplicate key.) -/
def objSet : List (String × String) → String → String → List (String × String)
  | [], k, v => [(k, v)]
  | q :: o, k, v => if q.1 = k then (k, v) :: o else q :: objSet o k v

/-- Lookup in the association-list object model. -/
def objGet (o : List (String × String)) (k : String) : Option String :=
  (o.find? (fun q => q.1 = k)).map Prod.snd

/-- Test of the anchored digits regex used in matchPathAdvanced: a
nonempty all-digit param name. -/
def isNumericKey (s : String) : Bool := s.toList ≠ [] && s.toList.all Char.isDigit

/-- paramName === "0" or the anchored digits test. -/
def numericParamName (s : String) : Bool := s == "0" || isNumericKey s

/-- The forEach loop of matchPathAdvanced (src/scorer.js lines 170-177):
walk the param names together with the capture groups; numeric keys are
always recorded, the literal star and double-star names are skipped, and
every other name is recorded under itself. -/
def buildParams : List String → List (List Char) → List (String × String) → List (String × String)
  | [], _, o => o
  | _ :: _, [], o => o
  | name :: ns, c :: cs, o =>
      let o' :=
        if numericParamName name then objSet o name (String.mk c)
        else if name ≠ "*" ∧ name ≠ "**" then objSet o name (String.mk c)
        else o
      buildParams ns cs o'

/-- ReactRouterScorer.matchPathAdvanced, returning the params object of
the match result (None for no match). -/
def matchPathAdvanced (pathname : String) (c : Compiled) : Option (List (String × String)) :=
  match runPattern c.toks (normalizePath pathname).toList with
  | none => none
  | some caps => some (buildParams c.params caps [])

/-- JS lexicographic string comparison (code-unit order): the left list
is strictly smaller. -/
def charListLt : List Char → List Char → Bool
  | [], [] => false
  | [], _ :: _ => true
  | _ :: _, [] => false
  | a :: as, b :: bs => if a < b then true else if b < a then false else charListLt as bs

/-- The key scan of getTailGroup (routes.js lines 64-72): fold the keys
in insertion order, keeping the largest key that passes the unanchored
digit regex (which tests for the presence of a digit anywhere in the
key). -/
def getTailKey : List String → Option String → Option String
  | [], tk => tk
  | k :: ks, tk =>
      let upd :=
        (k.toList.any Char.isDigit) &&
          (match tk with
           | none => true
           | some a => charListLt a.toList k.toList)
      getTailKey ks (if upd then some k else tk)

/-- getTailGroup: the capture recorded under the winning key, or none
when no key passes the digit test. -/
def getTailGroup (groups : List (String × String)) : Option String :=
  match getTailKey (groups.map Prod.fst) none with
  | none => none
  | some k => objGet groups k

/-- Counterexample to claim C7 as stated: the compiled matcher for
/search/:query? does not match /search. The compiled regex makes the
separating slash before the optional group mandatory, so omitting the
optional segment entirely fails to match. -/
theorem c7_counterexample :
    matchPathAdvanced "/search" (compileRoute "/search/:query?") = none := by
  rfl

/-- Claim C7 (amended): the compiled matcher for a template ending in an
optional dynamic segment matches a pathname that supplies a concrete
value for the segment (capturing it under the segment name), but does
not match the pathname that omits the segment entirely, because the
separating slash emitted before the optional group is mandatory. -/
theorem c7_amended :
    matchPathAdvanced "/search/react" (compileRoute "/search/:query?")
        = some [("query", "react")] ∧
    matchPathAdvanced "/search" (compileRoute "/search/:query?") = none ∧
    testPattern (compileRoute "/search/:query?").toks "/search" = false := by
  refine ⟨rfl, rfl, rfl⟩

/-! ## The tail capture (claim C5)

The source records the param name "0" for every single star segment and
the name double-star for every double-star segment; matchPathAdvanced
then skips the double-star name entirely. The lemmas below culminate in:
for a template whose final segment is a single star, the capture stored
under the key "0" by a successful match is the unconsumed suffix of the
normalized pathname. -/

lemma takeWhile_length_le (p : α → Bool) (l : List α) :
    (l.takeWhile p).length ≤ l.length := by
  induction l with
  | nil => simp
  | cons a l ih =>
      rw [List.takeWhile_cons]
      split
      · simpa using ih
      · simp

lemma takeWhile_stop (p : α → Bool) :
    ∀ (l : List α) (x : α), l[(l.takeWhile p).length]? = some x → p x = false := by
  intro l
  induction l with
  | nil =>
      intro x hx
      simp at hx
  | cons a l ih =>
      intro x hx
      by_cases hpa : p a
      · rw [List.takeWhile_cons, if_pos hpa] at hx
        simp only [List.length_cons, List.getElem?_cons_succ] at hx
        exact ih x hx
      · rw [List.takeWhile_cons, if_neg hpa] at hx
        simp only [List.length_nil, List.getElem?_cons_zero, Option.some.injEq] at hx
        rw [← hx]
        simpa using hpa

/-! Unfold equations for matchToks and runPattern, stated in rewriting
friendly form. -/

lemma matchToks_nil_eq (cs : List Char) :
    matchToks [] cs = if cs = [] ∨ cs = ['/'] then some [] else none := rfl

lemma matchToks_lit_eq (s : List Char) (rest : List RTok) (cs : List Char) :
    matchToks (RTok.lit s :: rest) cs =
      if cs.take s.length = s then matchToks rest (cs.drop s.length) else none := rfl

lemma matchToks_slash_nil_eq (rest : List RTok) :
    matchToks (RTok.slash :: rest) [] = none := rfl

lemma matchToks_slash_cons_eq (rest : List RTok) (c : Char) (cs : List Char) :
    matchToks (RTok.slash :: rest) (c :: cs) =
      if c = '/' then matchToks rest cs else none := rfl

lemma matchToks_anyStar_eq (rest : List RTok) (cs : List Char) :
    matchToks (RTok.anyStar :: rest) cs =
      (descLens (cs.takeWhile notNl).length).findSome? (fun n =>
        (matchToks rest (cs.drop n)).map (fun caps => cs.take n :: caps)) := rfl

lemma matchToks_segPlus_eq (rest : List RTok) (cs : List Char) :
    matchToks (RTok.segPlus :: rest) cs =
      ((descLens (cs.takeWhile notSlash).length).filter (fun n => 1 ≤ n)).findSome?
        (fun n => (matchToks rest (cs.drop n)).map (fun caps => cs.take n :: caps)) := rfl

lemma matchToks_segLazy_eq (rest : List RTok) (cs : List Char) :
    matchToks (RTok.segLazy :: rest) cs =
      (List.range ((cs.takeWhile notSlash).length + 1)).findSome? (fun n =>
        (matchToks rest (cs.drop n)).map (fun caps => cs.take n :: caps)) := rfl

lemma runPattern_nil_eq (toks : List RTok) :
    runPattern toks [] = matchToks toks [] := rfl

lemma runPattern_cons_eq (toks : List RTok) (c : Char) (cs : List Char) :
    runPattern toks (c :: cs) =
      if c = '/' then (matchToks toks cs).orElse (fun _ => matchToks toks (c :: cs))
      else matchToks toks (c :: cs) := rfl

/-- The number of capturing groups in a token list. -/
def countCaps : List RTok → Nat
  | [] => 0
  | RTok.lit _ :: r => countCaps r
  | RTok.slash :: r => countCaps r
  | RTok.anyStar :: r => countCaps r + 1
  | RTok.segPlus :: r => countCaps r + 1
  | RTok.segLazy :: r => countCaps r + 1

lemma countCaps_append (a b : List RTok) :
    countCaps (a ++ b) = countCaps a + countCaps b := by
  induction a with
  | nil => simp [countCaps]
  | cons t a ih => cases t <;> simp [countCaps, ih] <;> omega

lemma matchToks_length :
    ∀ (ts : List RTok) (cs : List Char) (caps : List (List Char)),
      matchToks ts cs = some caps → caps.length = countCaps ts := by
  intro ts
  induction ts with
  | nil =>
      intro cs caps h
      rw [matchToks_nil_eq] at h
      split at h
      · simp only [Option.some.injEq] at h
        simp [← h, countCaps]
      · exact absurd h (by simp)
  | cons tok ts ih =>
      intro cs caps h
      cases tok with
      | lit s =>
          rw [matchToks_lit_eq] at h
          split at h
          · exact ih _ _ h
          · exact absurd h (by simp)
      | slash =>
          cases cs with
          | nil => exact absurd (matchToks_slash_nil_eq ts ▸ h) (by simp)
          | cons c cs' =>
              rw [matchToks_slash_cons_eq] at h
              split at h
              · exact ih _ _ h
              · exact absurd h (by simp)
      | anyStar =>
          rw [matchToks_anyStar_eq] at h
          obtain ⟨n, hn, hfn⟩ := List.exists_of_findSome?_eq_some h
          obtain ⟨caps0, hc0, hcap⟩ := Option.map_eq_some'.mp hfn
          rw [← hcap]
          simp [countCaps, ih _ _ hc0]
      | segPlus =>
          rw [matchToks_segPlus_eq] at h
          obtain ⟨n, hn, hfn⟩ := List.exists_of_findSome?_eq_some h
          obtain ⟨caps0, hc0, hcap⟩ := Option.map_eq_some'.mp hfn
          rw [← hcap]
          simp [countCaps, ih _ _ hc0]
      | segLazy =>
          rw [matchToks_segLazy_eq] at h
          obtain ⟨n, hn, hfn⟩ := List.exists_of_findSome?_eq_some h
          obtain ⟨caps0, hc0, hcap⟩ := Option.map_eq_some'.mp hfn
          rw [← hcap]
          simp [countCaps, ih _ _ hc0]

lemma matchToks_star_nil (cs : List Char) (caps : List (List Char))
    (h : matchToks [RTok.anyStar] cs = some caps) : caps = [cs] := by
  rw [matchToks_anyStar_eq] at h
  by_cases hnl : (cs.takeWhile notNl).length = cs.length
  · rw [hnl] at h
    have hd : descLens cs.length = cs.length :: (List.range cs.length).reverse := by
      simp [descLens, List.range_succ]
    rw [hd, List.findSome?_cons] at h
    rw [show (matchToks [] (cs.drop cs.length)).map (fun c => cs.take cs.length :: c)
        = some [cs] from by simp [matchToks_nil_eq]] at h
    simpa using h.symm
  · exfalso
    have hle := takeWhile_length_le notNl cs
    have hlt : (cs.takeWhile notNl).length < cs.length := lt_of_le_of_ne hle hnl
    obtain ⟨n, hn, hfn⟩ := List.exists_of_findSome?_eq_some h
    have hn' : n ≤ (cs.takeWhile notNl).length := by
      have hn2 : n ∈ List.range ((cs.takeWhile notNl).length + 1) :=
        List.mem_reverse.mp hn
      have := List.mem_range.mp hn2
      omega
    obtain ⟨caps0, hc0, -⟩ := Option.map_eq_some'.mp hfn
    rw [matchToks_nil_eq] at hc0
    split at hc0
    · rename_i hcond
      rcases hcond with hnil | hslash
      · have : cs.length ≤ n := by
          have := List.drop_eq_nil_iff.mp hnil
          omega
        omega
      · have hnlen : n < cs.length := by omega
        have e1 : cs[n]? = some '/' := by
          have : (cs.drop n)[0]? = some '/' := by rw [hslash]; rfl
          rw [List.getElem?_drop] at this
          simpa using this
        have hlen1 : (cs.drop n).length = 1 := by rw [hslash]; rfl
        have hnm : n = (cs.takeWhile notNl).length := by
          rw [List.length_drop] at hlen1
          omega
        rcases hx : cs[(cs.takeWhile notNl).length]? with _ | x
        · rw [List.getElem?_eq_none_iff] at hx
          omega
        · have hstop := takeWhile_stop notNl cs x hx
          have hxnl : x = '\n' := by simpa [notNl] using hstop
          rw [hnm, hx, hxnl] at e1
          simp at e1
    · exact absurd hc0 (by simp)

lemma findSome_star_case {L : List Nat} {ts : List RTok} {cs : List Char}
    {caps : List (List Char)}
    (h : L.findSome? (fun n =>
        (matchToks ts (cs.drop n)).map (fun c => cs.take n :: c)) = some caps)
    (ih : ∀ cs' caps', matchToks ts cs' = some caps' →
        ∃ u t, cs' = u ++ t ∧ caps'.getLast? = some t) :
    ∃ u t, cs = u ++ t ∧ caps.getLast? = some t := by
  obtain ⟨n, hn, hfn⟩ := List.exists_of_findSome?_eq_some h
  obtain ⟨caps0, hc0, hcap⟩ := Option.map_eq_some'.mp hfn
  obtain ⟨u, t, hu, hl⟩ := ih _ _ hc0
  have hne : caps0 ≠ [] := by
    intro e
    rw [e] at hl
    simp at hl
  obtain ⟨c0, caps0', rfl⟩ := List.exists_cons_of_ne_nil hne
  refine ⟨cs.take n ++ u, t, ?_, ?_⟩
  · conv_lhs => rw [← List.take_append_drop n cs]
    rw [hu, List.append_assoc]
  · rw [← hcap, List.getLast?_cons_cons]
    exact hl

lemma matchToks_concat_star :
    ∀ (ts : List RTok) (cs : List Char) (caps : List (List Char)),
      matchToks (ts ++ [RTok.anyStar]) cs = some caps →
      ∃ u t, cs = u ++ t ∧ caps.getLast? = some t := by
  intro ts
  induction ts with
  | nil =>
      intro cs caps h
      have := matchToks_star_nil cs caps (by simpa using h)
      exact ⟨[], cs, by simp, by simp [this]⟩
  | cons tok ts ih =>
      intro cs caps h
      cases tok with
      | lit s =>
          rw [List.cons_append, matchToks_lit_eq] at h
          split at h
          · obtain ⟨u, t, hu, hl⟩ := ih _ _ h
            refine ⟨cs.take s.length ++ u, t, ?_, hl⟩
            conv_lhs => rw [← List.take_append_drop s.length cs]
            rw [hu, List.append_assoc]
          · exact absurd h (by simp)
      | slash =>
          rw [List.cons_append] at h
          cases cs with
          | nil => exact absurd (matchToks_slash_nil_eq _ ▸ h) (by simp)
          | cons c cs' =>
              rw [matchToks_slash_cons_eq] at h
              split at h
              · rename_i hc
                subst hc
                obtain ⟨u, t, hu, hl⟩ := ih _ _ h
                exact ⟨'/' :: u, t, by rw [hu]; rfl, hl⟩
              · exact absurd h (by simp)
      | anyStar =>
          rw [List.cons_append, matchToks_anyStar_eq] at h
          exact findSome_star_case h ih
      | segPlus =>
          rw [List.cons_append, matchToks_segPlus_eq] at h
          exact findSome_star_case h ih
      | segLazy =>
          rw [List.cons_append, matchToks_segLazy_eq] at h
          exact findSome_star_case h ih

lemma runPattern_concat_star {ts : List RTok} {cs : List Char} {caps : List (List Char)}
    (h : runPattern (ts ++ [RTok.anyStar]) cs = some caps) :
    ∃ u t, cs = u ++ t ∧ caps.getLast? = some t := by
  cases cs with
  | nil =>
      rw [runPattern_nil_eq] at h
      exact matchToks_concat_star _ _ _ h
  | cons c cs' =>
      rw [runPattern_cons_eq] at h
      split at h
      · rename_i hc
        subst hc
        rcases ho : matchToks (ts ++ [RTok.anyStar]) cs' with _ | caps'
        · rw [ho] at h
          simp only [Option.orElse] at h
          exact matchToks_concat_star _ _ _ h
        · rw [ho] at h
          simp only [Option.orElse, Option.some.injEq] at h
          obtain ⟨u, t, hu, hl⟩ := matchToks_concat_star _ _ _ ho
          refine ⟨'/' :: u, t, by rw [hu]; rfl, ?_⟩
          rw [← h]
          exact hl
      · exact matchToks_concat_star _ _ _ h

lemma compileSegsAux_concat_star (l : List String) (first : Bool) :
    compileSegsAux (l ++ ["*"]) first
      = ((compileSegsAux l first).1
          ++ (if l = [] ∧ first = true then ([] : List RTok) else [RTok.slash])
          ++ [RTok.anyStar],
         (compileSegsAux l first).2 ++ ["0"]) := by
  induction l generalizing first with
  | nil =>
      cases first <;> simp [compileSegsAux]
  | cons s l ih =>
      rw [List.cons_append, compileSegsAux, compileSegsAux, ih false]
      cases first <;> simp [List.append_assoc]

lemma objGet_objSet (o : List (String × String)) (k v : String) :
    objGet (objSet o k v) k = some v := by
  induction o with
  | nil => simp [objSet, objGet]
  | cons q o ih =>
      rw [objSet]
      split
      · simp [objGet]
      · rename_i hq
        simpa [objGet, List.find?_cons, hq] using ih

lemma buildParams_concat (n0 : String) (c0 : List Char) :
    ∀ (ns : List String) (cs : List (List Char)) (o : List (String × String)),
      ns.length = cs.length →
      buildParams (ns ++ [n0]) (cs ++ [c0]) o
        = buildParams [n0] [c0] (buildParams ns cs o) := by
  intro ns
  induction ns with
  | nil =>
      intro cs o h
      have : cs = [] := by
        cases cs with
        | nil => rfl
        | cons c cs => simp at h
      subst this
      rfl
  | cons n ns ih =>
      intro cs o h
      cases cs with
      | nil => simp at h
      | cons c cs =>
          rw [List.cons_append, List.cons_append, buildParams, buildParams]
          exact ih cs _ (by simpa using h)

lemma paramsLen_eq_countCaps (l : List String) (first : Bool) :
    (compileSegsAux l first).2.length = countCaps (compileSegsAux l first).1 := by
  induction l generalizing first with
  | nil => simp [compileSegsAux, countCaps]
  | cons s l ih =>
      rw [compileSegsAux]
      dsimp only
      rw [countCaps_append, countCaps_append]
      have hsep : countCaps (if first = true then ([] : List RTok) else [RTok.slash]) = 0 := by
        cases first <;> rfl
      split
      · simp [countCaps, ih false, hsep]
        omega
      · split
        · simp [countCaps, ih false, hsep]
          omega
        · split
          · split
            · simp [countCaps, ih false, hsep]
              omega
            · simp [countCaps, ih false, hsep]
              omega
          · simp [countCaps, ih false, hsep]

lemma runPattern_length {toks : List RTok} {cs : List Char} {caps : List (List Char)}
    (h : runPattern toks cs = some caps) : caps.length = countCaps toks := by
  cases cs with
  | nil =>
      rw [runPattern_nil_eq] at h
      exact matchToks_length _ _ _ h
  | cons c cs' =>
      rw [runPattern_cons_eq] at h
      split at h
      · rcases ho : matchToks toks cs' with _ | caps'
        · rw [ho] at h
          simp only [Option.orElse] at h
          exact matchToks_length _ _ _ h
        · rw [ho] at h
          simp only [Option.orElse, Option.some.injEq] at h
          rw [← h]
          exact matchToks_length _ _ _ ho
      · exact matchToks_length _ _ _ h

/-- Counterexample to claim C5 as stated: capture slots are not recorded
under distinct ascending numeric keys. Every single star pushes the same
key "0" (template /star/star compiles to the param list ["0", "0"]), and
the double star pushes the literal name which matchPathAdvanced then
refuses to record: matching /a/x/y against /a/doublestar succeeds but
produces an empty params object, so the tail capture is absent even
though the unconsumed remainder x/y is not empty. -/
theorem c5_counterexample :
    (compileRoute "/*/*").params = ["0", "0"] ∧
    (compileRoute "/a/**").params = ["**"] ∧
    matchPathAdvanced "/a/x/y" (compileRoute "/a/**") = some [] ∧
    getTailGroup [] = none := by
  refine ⟨rfl, rfl, rfl, rfl⟩

/-- Claim C5 (amended): every single star records its capture under the
one shared numeric key "0" (so with several wildcards the last write
wins), and the double star records nothing; for a template whose final
segment is a single star, every successful match stores under the key
"0" the unconsumed remainder of the normalized pathname: a suffix whose
removal leaves the part consumed by the preceding segments. -/
theorem c5_amended (t p : String) (pre : List String)
    (res : List (String × String))
    (hsegs : segsOf t = pre ++ ["*"])
    (hmatch : matchPathAdvanced p (compileRoute t) = some res) :
    ∃ tail : String, objGet res "0" = some tail ∧
      ∃ u : List Char, (normalizePath p).toList = u ++ tail.toList := by
  rw [matchPathAdvanced] at hmatch
  rcases hrun : runPattern (compileRoute t).toks (normalizePath p).toList with _ | caps
  · rw [hrun] at hmatch
    exact absurd hmatch (by simp)
  · rw [hrun] at hmatch
    have hres : res = buildParams (compileRoute t).params caps [] := by
      simpa using hmatch.symm
    have htoks : (compileRoute t).toks
        = ((compileSegsAux pre true).1
            ++ (if pre = [] ∧ true = true then ([] : List RTok) else [RTok.slash]))
          ++ [RTok.anyStar] := by
      rw [compileRoute]
      dsimp only
      rw [hsegs, compileSegsAux_concat_star, List.append_assoc]
    have hparams : (compileRoute t).params = (compileSegsAux pre true).2 ++ ["0"] := by
      rw [compileRoute]
      dsimp only
      rw [hsegs, compileSegsAux_concat_star]
    rw [htoks] at hrun
    obtain ⟨u, tl, hu, hl⟩ := runPattern_concat_star hrun
    have hcapsne : caps ≠ [] := by
      intro e
      rw [e] at hl
      simp at hl
    have hsplit : caps.dropLast ++ [tl] = caps :=
      List.dropLast_append_getLast? tl hl
    -- the capture count of the prefix part equals the length of its params
    have hlen : caps.length = countCaps (((compileSegsAux pre true).1
        ++ (if pre = [] ∧ true = true then ([] : List RTok) else [RTok.slash]))
          ++ [RTok.anyStar]) := runPattern_length hrun
    have hlen2 : (compileSegsAux pre true).2.length = caps.dropLast.length := by
      rw [List.length_dropLast, hlen, countCaps_append, countCaps_append]
      have h0 : countCaps [RTok.anyStar] = 1 := rfl
      have h1 : countCaps (if pre = [] ∧ true = true then ([] : List RTok)
          else [RTok.slash]) = 0 := by
        split <;> rfl
      rw [h0, h1, paramsLen_eq_countCaps]
      omega
    refine ⟨String.mk tl, ?_, u, by simpa using hu⟩
    rw [hres, hparams]
    rw [← hsplit]
    rw [buildParams_concat "0" tl _ _ _ hlen2]
    rw [buildParams]
    rw [show numericParamName "0" = true from rfl]
    rw [if_pos rfl]
    rw [buildParams]
    exact objGet_objSet _ "0" (String.mk tl)

/-- Witness for C5 (amended): the template /docs/:page/star matched
against /docs/intro/x/y stores the suffix x/y under the key "0". -/
theorem c5_amended_witness :
    ∃ tail : String,
      objGet [("page", "intro"), ("0", "x/y")] "0" = some tail ∧
      ∃ u : List Char, (normalizePath "/docs/intro/x/y").toList = u ++ tail.toList :=
  c5_amended "/docs/:page/*" "/docs/intro/x/y" ["docs", ":page"]
    [("page", "intro"), ("0", "x/y")] rfl rfl

/-! ## The navigation controller (routes.js, class Routes)

The per-node state and the body of Routes._performNavigation for a single
sequential (uncancelled) navigation. Guards are modelled as functions from
the merged params to an outcome: allow stands for any JS return value
other than false (including undefined), deny for an explicit false, raise
for a thrown exception. The recursive child walk _checkChildrenCanLeave
is abstracted as an outcome parameter of performNavigation, and the
per-child goto fan-out of a tail match is returned as the forwardedTail
field instead of being executed (every registered child receives the same
pair).

Object identity, which the JS code tests with triple-equals, is modelled
by an oid field: each NodeState carries nextOid, an allocation counter
strictly above the oid of every live object, and every object literal the
code creates (the spread copies made by _getSortedRoutes and the fallback
copy made by _getRoute) is given a fresh oid drawn from the counter. -/

inductive GuardOutcome
  | allow
  | deny
  | raise
deriving DecidableEq

abbrev Params := List (String × String)

/-- A route descriptor: path, render (presence only: the view it returns
is irrelevant to navigation state), optional enter and leave guards. -/
structure Route where
  oid : Nat
  path : String
  hasRender : Bool
  enter : Option (Params → GuardOutcome) := none
  leave : Option (Params → GuardOutcome) := none

/-- The navigation state of one Routes controller. -/
structure NodeState where
  routes : List Route
  fallback : Option Route
  nextOid : Nat
  currentPathname : Option String
  currentRoute : Option Route
  currentParams : Params
  currentPassedParams : Params

/-- JS spread merge of two params objects, the second overriding. -/
def mergeParams (a b : Params) : Params :=
  b.foldl (fun o kv => objSet o kv.1 kv.2) a

/-- The comparator of _getSortedRoutes as a strict before relation:
score descending, then specificity descending. The tertiary indexOf
tie-break of the source always computes -1 minus -1 = 0 because the
compared elements are spread copies that are not in the routes array, so
ties fall through to the stability of Array.prototype.sort. -/
def routeBefore (a b : Route) : Bool :=
  if (scoreRoute b.path).score ≠ (scoreRoute a.path).score then
    decide ((scoreRoute b.path).score < (scoreRoute a.path).score)
  else if (scoreRoute b.path).specificity ≠ (scoreRoute a.path).specificity then
    decide ((scoreRoute b.path).specificity < (scoreRoute a.path).specificity)
  else false

/-- Stable insertion: a later element passes earlier ones only when it is
strictly before them, so equal elements keep insertion order, matching
the stability guarantee of Array.prototype.sort. -/
def insertStable (x : Route) : List Route → List Route
  | [] => [x]
  | y :: ys => if routeBefore x y then x :: y :: ys else y :: insertStable x ys

/-- _getSortedRoutes: build the spread copies (fresh object identities,
one per table entry) and sort them stably by the comparator. -/
def sortedRoutes (s : NodeState) : List Route :=
  (s.routes.enum.map (fun q => { q.2 with oid := s.nextOid + q.1 })).foldl
    (fun acc r => insertStable r acc) []

/-- Routes._getRoute: first match in sorted order against the raw
pathname via regex.test; on no match, the fallback (if any) is returned
as a fresh copy whose path is the single-star template. -/
def getRouteResolved (s : NodeState) (pathname : String) : Option Route :=
  match (sortedRoutes s).find? (fun r => testPattern (compileRoute r.path).toks pathname) with
  | some r => some r
  | none =>
      match s.fallback with
      | none => none
      | some fb => some { fb with path := "/*", oid := s.nextOid + s.routes.length }

inductive NavOutcome
  | committed
  | cancelled
  | noMatch
  | guardFault
deriving DecidableEq

/-- The observable result of one _performNavigation run: the state after
the run, how it ended, whether the enter guard was invoked and what it
returned, and the tail goto forwarded to every registered child. -/
structure NavResult where
  state : NodeState
  outcome : NavOutcome
  enterOutcome : Option GuardOutcome
  forwardedTail : Option (String × Params)

/-- The leave-guard section of _performNavigation (lines 274-286):
invoked only when not in recovery and a current route with a leave
callback exists, with the merged current params. -/
def leaveCheck (s : NodeState) (skipLeave : Bool) : GuardOutcome :=
  if skipLeave then .allow
  else
    match s.currentRoute with
    | none => .allow
    | some r =>
        match r.leave with
        | none => .allow
        | some g => g (mergeParams s.currentParams s.currentPassedParams)

/-- Line 346-349: the committed local pathname is the full pathname minus
the trailing tail capture length (substring with clamping). -/
def commitLocalPathname (pathname : String) (tail : Option String) : String :=
  match tail with
  | none => pathname
  | some t => String.mk (pathname.toList.take (pathname.toList.length - t.toList.length))

/-- The matching and committing section of _performNavigation (lines
306-357). The empty-table branch commits the whole pathname as the tail;
the resolution branch resolves, runs the enter guard, and commits only
on approval. -/
def matchPhase (s : NodeState) (pathname : String) (passed : Params) : NavResult :=
  if s.routes.length = 0 ∧ s.fallback.isNone = true then
    { state := { s with
        currentPathname := some "",
        currentParams := [("0", pathname)],
        currentPassedParams := passed },
      outcome := .committed,
      enterOutcome := none,
      forwardedTail := some (pathname, passed) }
  else
    match getRouteResolved s pathname with
    | none => ⟨s, .noMatch, none, none⟩
    | some r =>
        let params := (matchPathAdvanced pathname (compileRoute r.path)).getD []
        let tail := getTailGroup params
        let committed : NavResult :=
          { state := { s with
              currentRoute := some r,
              currentParams := params,
              currentPassedParams := passed,
              currentPathname := some (commitLocalPathname pathname tail),
              nextOid := s.nextOid + s.routes.length + 1 },
            outcome := .committed,
            enterOutcome := if r.enter.isSome then some .allow else none,
            forwardedTail := tail.map (fun tl => (tl, passed)) }
        match r.enter with
        | none => committed
        | some g =>
            match g (mergeParams params passed) with
            | .deny => ⟨s, .cancelled, some .deny, none⟩
            | .raise => ⟨s, .guardFault, some .raise, none⟩
            | .allow => committed

/-- Routes._performNavigation for one uncontended navigation: leave
guard, children leave walk (abstracted as the childrenLeave outcome,
skipped like the leave guard when in recovery), then matchPhase. -/
def performNavigation (s : NodeState) (pathname : String) (passed : Params)
    (skipLeave : Bool) (childrenLeave : GuardOutcome) : NavResult :=
  match leaveCheck s skipLeave with
  | .deny => ⟨s, .cancelled, none, none⟩
  | .raise => ⟨s, .guardFault, none, none⟩
  | .allow =>
      match (if skipLeave then GuardOutcome.allow else childrenLeave) with
      | .deny => ⟨s, .cancelled, none, none⟩
      | .raise => ⟨s, .guardFault, none, none⟩
      | .allow => matchPhase s pathname passed

lemma matchPhase_enter_reject (s : NodeState) (pathname : String) (passed : Params)
    (h : (matchPhase s pathname passed).enterOutcome = some GuardOutcome.deny ∨
         (matchPhase s pathname passed).enterOutcome = some GuardOutcome.raise) :
    (matchPhase s pathname passed).state = s := by
  by_cases hc : s.routes.length = 0 ∧ s.fallback.isNone = true
  · rw [matchPhase, if_pos hc] at h
    rcases h with h | h <;> simp at h
  · rw [matchPhase, if_neg hc] at h ⊢
    rcases hr : getRouteResolved s pathname with _ | r
    · rcases h with h | h <;> simp [hr] at h
    · rw [hr] at h
      dsimp only at h ⊢
      rcases he : r.enter with _ | g
      · rw [he] at h
        rcases h with h | h <;> simp at h
      · rw [he] at h
        dsimp only at h ⊢
        rcases hg : g (mergeParams
            ((matchPathAdvanced pathname (compileRoute r.path)).getD []) passed)
          with _ | _ | _
        · rw [hg] at h
          rcases h with h | h <;> simp at h
        · rfl
        · rfl

/-- Claim C1: if the resolved route has an enter guard and the guard
returns false or throws, no field of the committed navigation state
(currentRoute, currentParams, currentPassedParams, currentPathname) is
mutated: each is exactly what it was before the navigate call began. -/
theorem c1_enter_reject_preserves_state
    (s : NodeState) (pathname : String) (passed : Params)
    (skipLeave : Bool) (childrenLeave : GuardOutcome)
    (h : (performNavigation s pathname passed skipLeave childrenLeave).enterOutcome
            = some GuardOutcome.deny ∨
         (performNavigation s pathname passed skipLeave childrenLeave).enterOutcome
            = some GuardOutcome.raise) :
    (performNavigation s pathname passed skipLeave childrenLeave).state.currentRoute
        = s.currentRoute ∧
    (performNavigation s pathname passed skipLeave childrenLeave).state.currentParams
        = s.currentParams ∧
    (performNavigation s pathname passed skipLeave childrenLeave).state.currentPassedParams
        = s.currentPassedParams ∧
    (performNavigation s pathname passed skipLeave childrenLeave).state.currentPathname
        = s.currentPathname := by
  rw [performNavigation] at h ⊢
  split at h
  · rcases h with h | h <;> simp at h
  · rcases h with h | h <;> simp at h
  · split at h
    · rcases h with h | h <;> simp at h
    · rcases h with h | h <;> simp at h
    · have := matchPhase_enter_reject s pathname passed h
      rw [this]
      exact ⟨rfl, rfl, rfl, rfl⟩

/-- A concrete node whose single route carries a denying enter guard. -/
def denyRoute : Route := ⟨0, "/a", true, some (fun _ => GuardOutcome.deny), none⟩

def denyNode : NodeState :=
  ⟨[denyRoute], none, 1, some "/old", some ⟨9, "/old", true, none, none⟩,
    [("k", "v")], [("p", "q")]⟩

/-- Witness for C1: navigating the concrete node to /a invokes the
denying enter guard and leaves all four committed fields untouched. -/
theorem c1_enter_reject_preserves_state_witness :
    (performNavigation denyNode "/a" [] false GuardOutcome.allow).state.currentRoute
        = denyNode.currentRoute ∧
    (performNavigation denyNode "/a" [] false GuardOutcome.allow).state.currentParams
        = denyNode.currentParams ∧
    (performNavigation denyNode "/a" [] false GuardOutcome.allow).state.currentPassedParams
        = denyNode.currentPassedParams ∧
    (performNavigation denyNode "/a" [] false GuardOutcome.allow).state.currentPathname
        = denyNode.currentPathname :=
  c1_enter_reject_preserves_state denyNode "/a" [] false GuardOutcome.allow (Or.inl rfl)

/-- Claim C10: on a node with no routes and no fallback, navigation
commits the whole pathname as the simulated tail group: currentParams
becomes the object mapping "0" to the pathname, currentPathname becomes
the empty string, currentPassedParams becomes the passed params, while
currentRoute is left unchanged (not cleared), no enter guard is invoked,
and the pathname is forwarded to the children. -/
theorem c10_empty_table_commit
    (s : NodeState) (pathname : String) (passed : Params)
    (hempty : s.routes = []) (hfb : s.fallback = none)
    (hleave : leaveCheck s false = GuardOutcome.allow) :
    (performNavigation s pathname passed false GuardOutcome.allow).state.currentParams
        = [("0", pathname)] ∧
    (performNavigation s pathname passed false GuardOutcome.allow).state.currentPathname
        = some "" ∧
    (performNavigation s pathname passed false GuardOutcome.allow).state.currentPassedParams
        = passed ∧
    (performNavigation s pathname passed false GuardOutcome.allow).state.currentRoute
        = s.currentRoute ∧
    (performNavigation s pathname passed false GuardOutcome.allow).enterOutcome = none ∧
    (performNavigation s pathname passed false GuardOutcome.allow).outcome
        = NavOutcome.committed ∧
    (performNavigation s pathname passed false GuardOutcome.allow).forwardedTail
        = some (pathname, passed) := by
  have hmp : performNavigation s pathname passed false GuardOutcome.allow
      = matchPhase s pathname passed := by
    rw [performNavigation, hleave]
    rfl
  rw [hmp, matchPhase, if_pos ⟨by simp [hempty], by simp [hfb]⟩]

  exact ⟨rfl, rfl, rfl, rfl, rfl, rfl, rfl⟩

/-- A concrete empty-table node that still has a committed route. -/
def emptyNode : NodeState :=
  ⟨[], none, 5, some "/old", some ⟨2, "/old", true, none, none⟩, [("x", "1")], []⟩

/-- Witness for C10 at the concrete empty-table node. -/
theorem c10_empty_table_commit_witness :
    (performNavigation emptyNode "/deep/path" [("a", "b")] false
        GuardOutcome.allow).state.currentParams = [("0", "/deep/path")] ∧
    (performNavigation emptyNode "/deep/path" [("a", "b")] false
        GuardOutcome.allow).state.currentPathname = some "" ∧
    (performNavigation emptyNode "/deep/path" [("a", "b")] false
        GuardOutcome.allow).state.currentPassedParams = [("a", "b")] ∧
    (performNavigation emptyNode "/deep/path" [("a", "b")] false
        GuardOutcome.allow).state.currentRoute = emptyNode.currentRoute ∧
    (performNavigation emptyNode "/deep/path" [("a", "b")] false
        GuardOutcome.allow).enterOutcome = none ∧
    (performNavigation emptyNode "/deep/path" [("a", "b")] false
        GuardOutcome.allow).outcome = NavOutcome.committed ∧
    (performNavigation emptyNode "/deep/path" [("a", "b")] false
        GuardOutcome.allow).forwardedTail = some ("/deep/path", [("a", "b")]) :=
  c10_empty_table_commit emptyNode "/deep/path" [("a", "b")] rfl rfl rfl

/-! ## Tail propagation (claim C6) -/

def clientRoute : Route := ⟨0, "/client/*", true, none, none⟩

def ordersRoute : Route := ⟨0, "/orders", true, none, none⟩

def tailParent : NodeState := ⟨[clientRoute], none, 1, none, none, [], []⟩

def tailChild : NodeState := ⟨[ordersRoute], none, 1, none, none, [], []⟩

/-- Counterexample to claim C6 as stated: the parent commits the local
pathname slash-client-slash (the substring computation keeps the
separating slash), not slash-client, and it forwards the bare tail
capture orders (no leading slash), not slash-orders. -/
theorem c6_counterexample :
    (performNavigation tailParent "/client/orders" [] false
        GuardOutcome.allow).state.currentPathname ≠ some "/client" ∧
    (performNavigation tailParent "/client/orders" [] false
        GuardOutcome.allow).forwardedTail ≠ some ("/orders", []) := by
  constructor
  · rw [show (performNavigation tailParent "/client/orders" [] false
        GuardOutcome.allow).state.currentPathname = some "/client/" from rfl]
    decide
  · rw [show (performNavigation tailParent "/client/orders" [] false
        GuardOutcome.allow).forwardedTail = some ("orders", []) from rfl]
    decide

/-- Claim C6 (amended): with the parent table holding the client-star
route and the child table holding the orders route, navigating the
parent to /client/orders commits the parent local pathname
slash-client-slash (with its trailing slash) and forwards the tail
capture orders (without a leading slash) to the child, whose navigation
commits the local pathname orders. -/
theorem c6_amended :
    (performNavigation tailParent "/client/orders" [] false
        GuardOutcome.allow).outcome = NavOutcome.committed ∧
    (performNavigation tailParent "/client/orders" [] false
        GuardOutcome.allow).state.currentPathname = some "/client/" ∧
    (performNavigation tailParent "/client/orders" [] false
        GuardOutcome.allow).forwardedTail = some ("orders", []) ∧
    (performNavigation tailChild "orders" [] false
        GuardOutcome.allow).outcome = NavOutcome.committed ∧
    (performNavigation tailChild "orders" [] false
        GuardOutcome.allow).state.currentPathname = some "orders" :=
  ⟨rfl, rfl, rfl, rfl, rfl⟩

/-! ## Table mutation: removeRoute (claim C8) and addRoute (claim C9) -/

/-- The argument of removeRoute: a path string or an object reference. -/
inductive RouteArg
  | byPath (p : String)
  | byRef (oid : Nat)

structure RemoveResult where
  state : NodeState
  removed : Option Route
  renavigated : Option (String × Params)
  deferred : Bool

/-- Routes.removeRoute: defer when a navigation is pending; locate by
path (findIndex on path) or by reference (indexOf, modelled by oid);
splice the entry out; re-navigate the current pathname only when the
removed object is reference-identical to the committed current route. -/
def removeRoute (s : NodeState) (pending : Bool) (arg : RouteArg) : RemoveResult :=
  if pending then ⟨s, none, none, true⟩
  else
    let idx? : Option Nat :=
      match arg with
      | .byPath p => s.routes.findIdx? (fun r => r.path = p)
      | .byRef oid => s.routes.findIdx? (fun r => r.oid = oid)
    match idx? with
    | none => ⟨s, none, none, false⟩
    | some i =>
        match s.routes[i]? with
        | none => ⟨s, none, none, false⟩
        | some rr =>
            let renav :=
              match s.currentRoute, s.currentPathname with
              | some cr, some cp =>
                  if cr.oid = rr.oid then some (cp, s.currentPassedParams) else none
              | some _, none => none
              | none, _ => none
            ⟨{ s with routes := s.routes.eraseIdx i }, some rr, renav, false⟩

def aRoute : Route := ⟨0, "/a", true, none, none⟩

def removeStart : NodeState := ⟨[aRoute], none, 1, none, none, [], []⟩

/-- The node after committing a navigation to /a: the committed current
route is the spread-augmented copy (fresh object, oid 1), not the table
entry (oid 0). -/
def removeAfterNav : NodeState :=
  (performNavigation removeStart "/a" [] false GuardOutcome.allow).state

/-- Claim C8 is right about the intent but the code cannot satisfy it:
after a committed navigation the stored current route is the spread copy
produced by _getSortedRoutes, which is never reference-identical to the
table descriptor, so removing the committed route (by path or by
reference) removes it from the table but the triple-equals comparison
fails and no re-navigation is triggered. -/
theorem c8_remove_current_route_no_renavigation :
    removeAfterNav.currentPathname = some "/a" ∧
    removeAfterNav.currentRoute = some { aRoute with oid := 1 } ∧
    (removeRoute removeAfterNav false (RouteArg.byPath "/a")).removed = some aRoute ∧
    (removeRoute removeAfterNav false (RouteArg.byPath "/a")).state.routes = [] ∧
    (removeRoute removeAfterNav false (RouteArg.byPath "/a")).renavigated = none ∧
    (removeRoute removeAfterNav false (RouteArg.byRef 0)).removed = some aRoute ∧
    (removeRoute removeAfterNav false (RouteArg.byRef 0)).renavigated = none :=
  ⟨rfl, rfl, rfl, rfl, rfl, rfl, rfl⟩

structure AddResult where
  state : NodeState
  ok : Bool
  renavigated : Option (String × Params)
  deferred : Bool

/-- Routes.addRoute: reject (returning false, never raising) a route
with an empty path, without a render function, or whose path duplicates
a table entry; defer when a navigation is pending; otherwise insert at
the given index when it is in range, else push, and re-navigate the
current pathname when the new pattern tests true against it. -/
def addRoute (s : NodeState) (pending : Bool) (r : Route) (index : Option Nat) : AddResult :=
  if r.path = "" then ⟨s, false, none, false⟩
  else if r.hasRender = false then ⟨s, false, none, false⟩
  else if s.routes.any (fun r0 => r0.path = r.path) then ⟨s, false, none, false⟩
  else if pending then ⟨s, false, none, true⟩
  else
    let routes' :=
      match index with
      | some i => if i ≤ s.routes.length then s.routes.insertIdx i r else s.routes ++ [r]
      | none => s.routes ++ [r]
    let renav :=
      match s.currentPathname with
      | none => none
      | some cp =>
          if testPattern (compileRoute r.path).toks cp then
            some (cp, s.currentPassedParams)
          else none
    ⟨{ s with routes := routes' }, true, renav, false⟩

/-- Claim C9: addRoute answers each of the three rejection cases (empty
path, missing render, duplicate path) with the failure value false, and
in every such case the descriptor sequence of the table is unchanged. -/
theorem c9_add_rejections (s : NodeState) (pending : Bool) (r : Route) (index : Option Nat)
    (h : r.path = "" ∨ r.hasRender = false ∨ ∃ r0 ∈ s.routes, r0.path = r.path) :
    (addRoute s pending r index).ok = false ∧
    (addRoute s pending r index).state.routes = s.routes := by
  unfold addRoute
  split
  · exact ⟨rfl, rfl⟩
  · split
    · exact ⟨rfl, rfl⟩
    · split
      · exact ⟨rfl, rfl⟩
      · rename_i h1 h2 h3
        exfalso
        rcases h with h | h | h
        · exact h1 h
        · exact h2 h
        · exact h3 (List.any_eq_true.mpr (by
            obtain ⟨r0, hmem, hpath⟩ := h
            exact ⟨r0, hmem, by simpa using hpath⟩))

def addDupNode : NodeState := ⟨[aRoute], none, 1, some "/a", some aRoute, [], []⟩

def dupRoute : Route := ⟨7, "/a", true, none, none⟩

/-- Witness for C9: adding a duplicate of the path /a is rejected and
the table is unchanged. -/
theorem c9_add_rejections_witness :
    (addRoute addDupNode false dupRoute none).ok = false ∧
    (addRoute addDupNode false dupRoute none).state.routes = addDupNode.routes :=
  c9_add_rejections addDupNode false dupRoute none
    (Or.inr (Or.inr ⟨aRoute, List.mem_cons_self aRoute [], rfl⟩))

namespace TokenModel

/-! ## Token-based cancellation (claim C2)

An interleaving model of two concurrent calls of _gotoInternal on one
node. JS is run-to-completion, so a navigation is a sequence of atomic
blocks separated only by the await points of _performNavigation: the
leave-guard await (line 281), the children-leave await (line 295) and
the enter-guard await (line 329). Token allocation (line 231,
navigationId increment) runs synchronously with the first block. Each
token check below sits at the position the source gives it: line 289
after the leave await, line 302 after the children await, line 337
after the enter await; the commits (line 313-316 for the empty table,
lines 342-349 otherwise) happen inside the block opened by the check
that precedes them, with no intervening await. Guard results, the
table shape and match success are adversarial oracle choices, and the
scheduler interleaves the two threads arbitrarily; this is a superset
of the behaviors of the source, which additionally makes a later
navigate wait for the pending one to settle. A commit is recorded as
the committing token appended to the commits trace. -/

inductive Phase
  | pendingAlloc
  | awaitLeave
  | awaitChildren
  | awaitEnter
  | done
deriving DecidableEq

structure TState where
  phase : Phase
  tid : Nat
deriving DecidableEq

/-- Adversarial choices for the blocks of one navigation. -/
structure Oracle where
  leaveInvoked : Bool
  leaveRes : GuardOutcome
  childrenRes : GuardOutcome
  emptyTable : Bool
  matchFound : Bool
  hasEnter : Bool
  enterRes : GuardOutcome

structure Sys where
  navId : Nat
  commits : List Nat
  thrA : TState
  thrB : TState

/-- One atomic block of one thread. -/
def stepThread (navId : Nat) (commits : List Nat) (t : TState) (o : Oracle) :
    Nat × List Nat × TState :=
  match t.phase with
  | .pendingAlloc =>
      -- navigationId := navigationId + 1, then run synchronously to the
      -- first await (the leave await if a leave guard is invoked, else
      -- past the trivially passing line-289 check to the children await).
      (navId + 1, commits,
        ⟨if o.leaveInvoked then .awaitLeave else .awaitChildren, navId + 1⟩)
  | .awaitLeave =>
      match o.leaveRes with
      | .deny => (navId, commits, ⟨.done, t.tid⟩)
      | .raise => (navId, commits, ⟨.done, t.tid⟩)
      | .allow =>
          if t.tid = navId then (navId, commits, ⟨.awaitChildren, t.tid⟩)
          else (navId, commits, ⟨.done, t.tid⟩)
  | .awaitChildren =>
      match o.childrenRes with
      | .deny => (navId, commits, ⟨.done, t.tid⟩)
      | .raise => (navId, commits, ⟨.done, t.tid⟩)
      | .allow =>
          if t.tid = navId then
            if o.emptyTable then (navId, commits ++ [t.tid], ⟨.done, t.tid⟩)
            else if o.matchFound then
              if o.hasEnter then (navId, commits, ⟨.awaitEnter, t.tid⟩)
              else (navId, commits ++ [t.tid], ⟨.done, t.tid⟩)
            else (navId, commits, ⟨.done, t.tid⟩)
          else (navId, commits, ⟨.done, t.tid⟩)
  | .awaitEnter =>
      match o.enterRes with
      | .deny => (navId, commits, ⟨.done, t.tid⟩)
      | .raise => (navId, commits, ⟨.done, t.tid⟩)
      | .allow =>
          if t.tid = navId then (navId, commits ++ [t.tid], ⟨.done, t.tid⟩)
          else (navId, commits, ⟨.done, t.tid⟩)
  | .done => (navId, commits, t)

/-- A scheduler step: the chosen thread runs its next atomic block with
the chosen oracle. -/
def step (s : Sys) (c : Bool × Oracle) : Sys :=
  if c.1 then
    let r := stepThread s.navId s.commits s.thrA c.2
    ⟨r.1, r.2.1, r.2.2, s.thrB⟩
  else
    let r := stepThread s.navId s.commits s.thrB c.2
    ⟨r.1, r.2.1, s.thrA, r.2.2⟩

def run (s : Sys) : List (Bool × Oracle) → Sys
  | [] => s
  | c :: cs => run (step s c) cs

/-- Both navigations issued, neither yet allocated. -/
def init : Sys := ⟨0, [], ⟨.pendingAlloc, 0⟩, ⟨.pendingAlloc, 0⟩⟩

/-- The run invariant: committed tokens are nondecreasing in commit
order and bounded by the allocation counter. -/
def Inv (s : Sys) : Prop :=
  s.commits.Pairwise (· ≤ ·) ∧ ∀ x ∈ s.commits, x ≤ s.navId

lemma commits_append (commits : List Nat) (navId : Nat)
    (h1 : commits.Pairwise (· ≤ ·)) (h2 : ∀ x ∈ commits, x ≤ navId) :
    (commits ++ [navId]).Pairwise (· ≤ ·)
      ∧ ∀ x ∈ commits ++ [navId], x ≤ navId := by
  constructor
  · rw [List.pairwise_append]
    refine ⟨h1, by simp, ?_⟩
    intro x hx y hy
    have : y = navId := by simpa using hy
    subst this
    exact h2 x hx
  · intro x hx
    rcases List.mem_append.mp hx with h | h
    · exact h2 x h
    · have : x = navId := by simpa using h
      omega

lemma inv_stepThread (navId : Nat) (commits : List Nat) (t : TState) (o : Oracle)
    (h1 : commits.Pairwise (· ≤ ·)) (h2 : ∀ x ∈ commits, x ≤ navId) :
    (stepThread navId commits t o).2.1.Pairwise (· ≤ ·)
      ∧ (∀ x ∈ (stepThread navId commits t o).2.1, x ≤ (stepThread navId commits t o).1)
      ∧ navId ≤ (stepThread navId commits t o).1 := by
  obtain ⟨ph, tid⟩ := t
  cases ph
  case pendingAlloc =>
      dsimp only [stepThread]
      exact ⟨h1, fun x hx => by have := h2 x hx; omega, by omega⟩
  case awaitLeave =>
      dsimp only [stepThread]
      rcases o.leaveRes with _ | _ | _
      all_goals try dsimp only
      · split
        · exact ⟨h1, h2, le_refl navId⟩
        · exact ⟨h1, h2, le_refl navId⟩
      · exact ⟨h1, h2, le_refl navId⟩
      · exact ⟨h1, h2, le_refl navId⟩
  case awaitChildren =>
      dsimp only [stepThread]
      rcases o.childrenRes with _ | _ | _
      all_goals try dsimp only
      · split
        · rename_i ht
          rw [ht]
          split
          · obtain ⟨p1, p2⟩ := commits_append commits navId h1 h2
            exact ⟨p1, p2, le_refl navId⟩
          · split
            · split
              · exact ⟨h1, h2, le_refl navId⟩
              · obtain ⟨p1, p2⟩ := commits_append commits navId h1 h2
                exact ⟨p1, p2, le_refl navId⟩
            · exact ⟨h1, h2, le_refl navId⟩
        · exact ⟨h1, h2, le_refl navId⟩
      · exact ⟨h1, h2, le_refl navId⟩
      · exact ⟨h1, h2, le_refl navId⟩
  case awaitEnter =>
      dsimp only [stepThread]
      rcases o.enterRes with _ | _ | _
      all_goals try dsimp only
      · split
        · rename_i ht
          rw [ht]
          obtain ⟨p1, p2⟩ := commits_append commits navId h1 h2
          exact ⟨p1, p2, le_refl navId⟩
        · exact ⟨h1, h2, le_refl navId⟩
      · exact ⟨h1, h2, le_refl navId⟩
      · exact ⟨h1, h2, le_refl navId⟩
  case done =>
      dsimp only [stepThread]
      exact ⟨h1, h2, le_refl navId⟩

lemma inv_step (s : Sys) (c : Bool × Oracle) (h : Inv s) : Inv (step s c) := by
  obtain ⟨h1, h2⟩ := h
  rw [step]
  split
  · obtain ⟨p1, p2, _⟩ := inv_stepThread s.navId s.commits s.thrA c.2 h1 h2
    exact ⟨p1, p2⟩
  · obtain ⟨p1, p2, _⟩ := inv_stepThread s.navId s.commits s.thrB c.2 h1 h2
    exact ⟨p1, p2⟩

lemma inv_run (s : Sys) (cs : List (Bool × Oracle)) (h : Inv s) : Inv (run s cs) := by
  induction cs generalizing s with
  | nil => exact h
  | cons c cs ih => exact ih (step s c) (inv_step s c h)

/-- Claim C2: in every interleaved execution of two navigations on one
node, the sequence of committed tokens is nondecreasing. Tokens are
allocated by incrementing the per-node counter, so a navigate call
issued later holds a strictly larger token, and every commit is guarded
by a token check inside the same atomic block; hence a commit of the
earlier navigation can never be observed after a commit of the later
one, and the final committed state always reflects the latest
navigation that reached its commit, never a stale commit from a
superseded in-flight resolution. -/
theorem c2_commit_tokens_monotone (cs : List (Bool × Oracle)) :
    ((run init cs).commits).Pairwise (· ≤ ·) :=
  (inv_run init cs ⟨List.Pairwise.nil, by simp [init]⟩).1

end TokenModel

end LitRouter
